import Mathlib

/-!
# cedana kata wrapper: `scripts/kata-utils/cedana_kata_wrapper.c`

A shallow embedding of the wrapper's `main` and of the part of the POSIX
process state it acts on (descriptor table, one directory, `exec`), followed by
theorems about argument passing, stream redirection and the exit path.

Conventions of the embedding

* `char *` values are `Option String`: `none` is the NULL pointer.
* an element of the local array `copy_argv` is `Option (Option String)`: the
  outer `none` is a slot that was never written (indeterminate value).
* every array access is bounds checked; an access outside the array ends the
  run with a `Fault`.
* `int` values are `Int` (descriptors, return values); `argc` and the loop
  counter are `Nat` because the loop runs only for `0 <= i < argc <= INT_MAX`,
  where `i + 1` cannot overflow.
* the system calls `open`, `dup2`, `close`, `execvpe` are library code outside
  the repository; they are modelled after POSIX.1-2017 (and Linux for the
  numeric constants of `<fcntl.h>` and `<unistd.h>`). `open` can fail: no
  descriptor free below the descriptor limit (EMFILE), file absent in a
  directory that does not allow creating entries (EACCES), file present but
  not readable or not writable (EACCES).
-/

namespace KataWrapper

/-! ## C values -/

/-- A `char *`: `none` is NULL, `some s` points to the NUL-terminated string `s`. -/
abbrev CharPtr := Option String

/-- An element of a local (automatic) array of `char *`: `none` until it is written. -/
abbrev Slot := Option CharPtr

/-- Undefined behaviour that the embedding detects instead of performing. -/
inductive Fault where
  | vlaSize
  | readOutOfBounds (index : Nat)
  | writeOutOfBounds (index : Nat)
  | indeterminateRead (index : Nat)
  | nullFile
  deriving DecidableEq, Repr

/-! ## Constants of the system headers (Linux values) -/

/-- Access mode mask of `<fcntl.h>`. -/
def O_ACCMODE : Nat := 0o3
/-- Open for reading only. -/
def O_RDONLY : Nat := 0o0
/-- Open for writing only. -/
def O_WRONLY : Nat := 0o1
/-- Open for reading and writing. -/
def O_RDWR : Nat := 0o2
/-- Create the file if it does not exist. -/
def O_CREAT : Nat := 0o100
/-- With `O_CREAT`: fail if the file exists. -/
def O_EXCL : Nat := 0o200
/-- Truncate an existing regular file opened for writing. -/
def O_TRUNC : Nat := 0o1000

/-- Standard input descriptor of `<unistd.h>`. -/
def STDIN_FILENO : Int := 0
/-- Standard output descriptor of `<unistd.h>`. -/
def STDOUT_FILENO : Int := 1
/-- Standard error descriptor of `<unistd.h>`. -/
def STDERR_FILENO : Int := 2

/-! ## Process and file-system state -/

/-- A regular file as far as `open` is concerned: its bytes, its permission bits,
and the result of the kernel's permission check for the calling process. -/
structure File where
  contents : List Nat
  mode : Nat
  mayRead : Bool
  mayWrite : Bool
  deriving DecidableEq, Repr

/-- One system call as issued by the process, with its actual arguments. -/
inductive Syscall where
  | sys_open (path : String) (flags mode : Nat)
  | sys_dup2 (oldfd newfd : Int)
  | sys_close (fd : Int)
  | sys_execvpe (file : CharPtr) (argv : List Slot) (envp : CharPtr)
  deriving DecidableEq, Repr

/-- The descriptor table: slot `i` holds the identity of the open file
description that descriptor `i` refers to, or `none` when `i` is closed.
Slots past the end of the list are closed. -/
abbrev FdTable := List (Option Nat)

/-- The state of the process and of the part of the system it can observe. -/
structure World where
  /-- descriptor table of the process -/
  fds : FdTable
  /-- identity given to the next open file description the kernel creates -/
  nextOfd : Nat
  /-- entries of the current working directory, by name -/
  fs : String → Option File
  /-- whether the process may create entries in the current working directory -/
  cwdWritable : Bool
  /-- file-creation mask of the process -/
  umask : Nat
  /-- limit on descriptor numbers (`RLIMIT_NOFILE`): a new descriptor must be
  below it -/
  fdLimit : Nat
  /-- whether `execvpe` finds the named program and can execute it -/
  canExec : String → Bool
  /-- the calls issued so far, oldest first -/
  log : List Syscall

/-! ## Descriptor table operations -/

/-- The open file description descriptor `fd` refers to, `none` when `fd` is
negative or closed. -/
def lookup (t : FdTable) (fd : Int) : Option Nat :=
  if fd < 0 then none else (t[fd.toNat]?).join

/-- Store `v` in slot `i`, growing the table with closed slots if needed. -/
def setSlot (t : FdTable) (i : Nat) (v : Option Nat) : FdTable :=
  if i < t.length then t.set i v
  else t ++ List.replicate (i - t.length) none ++ [v]

/-- The lowest-numbered descriptor that is not open. -/
def lowestFree : FdTable → Nat
  | [] => 0
  | none :: _ => 0
  | some _ :: rest => lowestFree rest + 1

/-- The table after `dup2(oldfd, newfd)` and the value `dup2` returns: with
`oldfd` not open (or `newfd` negative) the call fails with -1 and changes
nothing; with `oldfd = newfd` it does nothing; otherwise `newfd` is made to
refer to the open file description of `oldfd`. -/
def fdDup2 (t : FdTable) (oldfd newfd : Int) : FdTable × Int :=
  match lookup t oldfd with
  | none => (t, -1)
  | some d =>
    if newfd < 0 then (t, -1)
    else if oldfd = newfd then (t, newfd)
    else (setSlot t newfd.toNat (some d), newfd)

/-- The table after `close(fd)` and the value `close` returns. -/
def fdClose (t : FdTable) (fd : Int) : FdTable × Int :=
  match lookup t fd with
  | none => (t, -1)
  | some _ => (setSlot t fd.toNat none, 0)

/-! ## System calls -/

/-- Permission bits of a file created with `mode` under the mask `umask`. -/
def applyUmask (mode umask : Nat) : Nat :=
  mode &&& (0o7777 ^^^ (umask &&& 0o777))

/-- Whether the access mode in `flags` includes reading. -/
def wantsRead (flags : Nat) : Bool :=
  flags &&& O_ACCMODE == O_RDONLY || flags &&& O_ACCMODE == O_RDWR

/-- Whether the access mode in `flags` includes writing. -/
def wantsWrite (flags : Nat) : Bool :=
  flags &&& O_ACCMODE == O_WRONLY || flags &&& O_ACCMODE == O_RDWR

/-- The file-level part of `open(path, flags, mode)` on the directory entry
`entry` of `path`, in a directory where the process may (`dirWritable`) or may
not create entries: `none` when the call fails (ENOENT without `O_CREAT`, EACCES
when the file would have to be created in a directory that does not allow it or
when the access mode is not permitted, EEXIST), otherwise the file as it is
after the call. -/
def openFile (flags mode umask : Nat) (dirWritable : Bool) (entry : Option File) :
    Option File :=
  match entry with
  | none =>
    if flags &&& O_CREAT != 0 then
      if dirWritable then
        some { contents := [], mode := applyUmask mode umask,
               mayRead := applyUmask mode umask &&& 0o400 != 0,
               mayWrite := applyUmask mode umask &&& 0o200 != 0 }
      else none
    else none
  | some f =>
    if flags &&& O_CREAT != 0 && flags &&& O_EXCL != 0 then none
    else if wantsRead flags && !f.mayRead then none
    else if wantsWrite flags && !f.mayWrite then none
    else if flags &&& O_TRUNC != 0 && wantsWrite flags then some { f with contents := [] }
    else some f

/-- The call `open(path, flags, mode)`: when the lowest free descriptor is not
below the descriptor limit the call fails (EMFILE) before the file is looked
at; otherwise, when the file-level part succeeds, a new open file description is
created and installed in the lowest free descriptor, which is returned. On
failure -1 is returned and only the log changes. -/
def sys_open (w : World) (path : String) (flags mode : Nat) : World × Int :=
  let w := { w with log := w.log ++ [Syscall.sys_open path flags mode] }
  if w.fdLimit ≤ lowestFree w.fds then (w, -1)
  else
    match openFile flags mode w.umask w.cwdWritable (w.fs path) with
    | none => (w, -1)
    | some f =>
      ({ w with
          fs := fun p => if p = path then some f else w.fs p,
          fds := setSlot w.fds (lowestFree w.fds) (some w.nextOfd),
          nextOfd := w.nextOfd + 1 },
        (lowestFree w.fds : Int))

/-- The call `dup2(oldfd, newfd)`: with `newfd` different from `oldfd` and not
below the descriptor limit the call fails (EBADF) and changes nothing;
otherwise it acts on the descriptor table as `fdDup2` says. -/
def sys_dup2 (w : World) (oldfd newfd : Int) : World × Int :=
  let r := if oldfd ≠ newfd ∧ (w.fdLimit : Int) ≤ newfd then (w.fds, -1)
    else fdDup2 w.fds oldfd newfd
  ({ w with fds := r.1, log := w.log ++ [Syscall.sys_dup2 oldfd newfd] }, r.2)

/-- The call `close(fd)`. -/
def sys_close (w : World) (fd : Int) : World × Int :=
  let r := fdClose w.fds fd
  ({ w with fds := r.1, log := w.log ++ [Syscall.sys_close fd] }, r.2)

/-- The strings `execvpe` reads from the array it is given: the elements before
the first NULL. Reading a slot that was never written, or running off the end of
the array before a NULL is met, is a fault. The `Nat` is the index of the head. -/
def execVector : List Slot → Nat → Except Fault (List String)
  | [], i => .error (.readOutOfBounds i)
  | none :: _, i => .error (.indeterminateRead i)
  | some none :: _, _ => .ok []
  | some (some s) :: rest, i =>
    match execVector rest (i + 1) with
    | .ok args => .ok (s :: args)
    | .error f => .error f

/-- What a call of `execvpe` leads to. -/
inductive ExecResult where
  | replaced (file : String) (args : List String)
  | returned (value : Int)
  | fault (f : Fault)
  deriving DecidableEq, Repr

/-- The call `execvpe(file, argv, envp)`: the process image is replaced by the
program `file`, started with the strings of `argv`, when that program can be
found and executed; otherwise the call returns -1. -/
def sys_execvpe (w : World) (file : CharPtr) (argv : List Slot) (envp : CharPtr) :
    World × ExecResult :=
  let w := { w with log := w.log ++ [Syscall.sys_execvpe file argv envp] }
  match file with
  | none => (w, .fault .nullFile)
  | some name =>
    match execVector argv 0 with
    | .error f => (w, .fault f)
    | .ok args => if w.canExec name then (w, .replaced name args) else (w, .returned (-1))

/-! ## The program -/

/-- Lines 8-9: `for(int i=0;i<argc;i++) copy_argv[i] = argv[i+1];`, as a
recursion on the number of iterations left (first `Nat`) with the counter `i`
(second `Nat`). -/
def copyLoop (argv : List CharPtr) : Nat → Nat → List Slot → Except Fault (List Slot)
  | 0, _, copy_argv => .ok copy_argv
  | n + 1, i, copy_argv =>
    match argv[i + 1]? with
    | none => .error (.readOutOfBounds (i + 1))
    | some p =>
      if i < copy_argv.length then copyLoop argv n (i + 1) (copy_argv.set i (some p))
      else .error (.writeOutOfBounds i)

/-- Lines 7-9: the declaration `char *copy_argv[argc];` and the copy loop. -/
def buildCopy (argc : Nat) (argv : List CharPtr) : Except Fault (List Slot) :=
  if argc = 0 then .error .vlaSize
  else copyLoop argv argc 0 (List.replicate argc none)

/-- Lines 12-14: the three `dup2` calls, in the order of the source. -/
def redirectStd (w : World) (fd : Int) : World :=
  let w := (sys_dup2 w fd STDOUT_FILENO).1
  let w := (sys_dup2 w fd STDIN_FILENO).1
  (sys_dup2 w fd STDERR_FILENO).1

/-- Line 11: `int fd = open("container_io.txt", O_RDWR | O_CREAT, 0666);`. -/
def openStep (w : World) : World × Int :=
  sys_open w "container_io.txt" (O_RDWR ||| O_CREAT) 0o666

/-- Lines 11-15: open, the three redirections, close. Returns the state just
before `execvpe` and the value of `fd`. -/
def setup (w : World) : World × Int :=
  let r := openStep w
  let w := redirectStd r.1 r.2
  ((sys_close w r.2).1, r.2)

/-- How a run of `main` ends. -/
inductive Outcome where
  | replaced (file : String) (args : List String)
  | exited (status : Int)
  | fault (f : Fault)
  deriving DecidableEq, Repr

/-- A run of `main`: the state when it ended (for `replaced`: the state the new
program image inherits) and how it ended. -/
structure Run where
  world : World
  outcome : Outcome

/-- The function `main(argc, argv)` of `cedana_kata_wrapper.c`. When `execvpe`
returns, control reaches the closing brace of `main`, which in C99 and later
(the source needs C99: variable length array, declaration in `for`) returns 0. -/
def main (argc : Nat) (argv : List CharPtr) (w : World) : Run :=
  match buildCopy argc argv with
  | .error f => { world := w, outcome := .fault f }
  | .ok copy_argv =>
    let w := (setup w).1
    match argv[1]? with
    | none => { world := w, outcome := .fault (.readOutOfBounds 1) }
    | some file =>
      match sys_execvpe w file copy_argv none with
      | (w, .replaced name args) => { world := w, outcome := .replaced name args }
      | (w, .returned _) => { world := w, outcome := .exited 0 }
      | (w, .fault f) => { world := w, outcome := .fault f }

/-- The arguments `main` receives from the C runtime: `argv` has `argc + 1`
elements, the first `argc` are strings and the last is NULL. -/
def WellFormed (argc : Nat) (argv : List CharPtr) : Prop :=
  argv.length = argc + 1 ∧ (∀ p ∈ argv.take argc, p ≠ none) ∧ argv[argc]? = some none

instance (argc : Nat) (argv : List CharPtr) : Decidable (WellFormed argc argv) := by
  unfold WellFormed; infer_instance

/-- A state for examples: the three standard descriptors open on description 0
(a terminal), an empty writable directory, mask 022, descriptor limit 1024, and
only `/bin/echo` executable. -/
def sampleWorld : World :=
  { fds := [some 0, some 0, some 0], nextOfd := 1, fs := fun _ => none, cwdWritable := true,
    umask := 0o22, fdLimit := 1024, canExec := fun p => p == "/bin/echo", log := [] }


/-! ## Observations and reference definitions -/

/-- The first element of the vector `main` builds, when building it succeeds. -/
def firstSlot (argc : Nat) (argv : List CharPtr) : Option Slot :=
  match buildCopy argc argv with
  | .ok copy_argv => copy_argv[0]?
  | .error _ => none

/-- The three redirections of descriptor `fd`, performed in the order given by
`order` (a list of target descriptors). -/
def redirectInOrder (w : World) (fd : Int) (order : List Int) : World :=
  order.foldl (fun v k => (sys_dup2 v fd k).1) w

/-- The redirections in the order the specification lists them (section 4.1,
steps 3 to 5): input, output, error. -/
def redirectSpec (w : World) (fd : Int) : World :=
  let w := (sys_dup2 w fd STDIN_FILENO).1
  let w := (sys_dup2 w fd STDOUT_FILENO).1
  (sys_dup2 w fd STDERR_FILENO).1

/-- The call sequence as the specification lists it (section 4.1, steps 2 to
7): open, redirect input, redirect output, redirect error, close, exec. -/
def specSequence (fd : Int) (file : CharPtr) (copy_argv : List Slot) : List Syscall :=
  [Syscall.sys_open "container_io.txt" (O_RDWR ||| O_CREAT) 0o666,
    Syscall.sys_dup2 fd STDIN_FILENO,
    Syscall.sys_dup2 fd STDOUT_FILENO,
    Syscall.sys_dup2 fd STDERR_FILENO,
    Syscall.sys_close fd,
    Syscall.sys_execvpe file copy_argv none]

/-- The state `sampleWorld` with standard input closed at the start. -/
def stdinClosedWorld : World :=
  { sampleWorld with fds := [none, some 0, some 0] }

/-- The state `sampleWorld` with a fourth descriptor open on description 7. -/
def extraDescriptorWorld : World :=
  { sampleWorld with fds := [some 0, some 0, some 0, some 7] }

/-- The state `sampleWorld` with the standard descriptors open on three
different descriptions. -/
def distinctStreamsWorld : World :=
  { sampleWorld with fds := [some 5, some 6, some 7] }

theorem copyLoop_spec (argv : List CharPtr) :
    ∀ (n i : Nat) (copy : List Slot), i + n ≤ copy.length → i + n < argv.length →
      ∃ r, copyLoop argv n i copy = .ok r ∧ r.length = copy.length ∧
        ∀ j, r[j]? = if i ≤ j ∧ j < i + n then (argv[j + 1]?).map some else copy[j]? := by
  intro n
  induction n with
  | zero =>
    intro i copy _ _
    refine ⟨copy, rfl, rfl, fun j => ?_⟩
    have : ¬ (i ≤ j ∧ j < i + 0) := by omega
    rw [if_neg this]
  | succ n ih =>
    intro i copy h1 h2
    have hlt : i + 1 < argv.length := by omega
    have hi : i < copy.length := by omega
    obtain ⟨r, hr, hlen, hget⟩ := ih (i + 1) (copy.set i (some argv[i + 1]))
      (by simp; omega) (by omega)
    refine ⟨r, ?_, by simpa using hlen, fun j => ?_⟩
    · simp [copyLoop, List.getElem?_eq_getElem hlt, hi, hr]
    · rw [hget j]
      by_cases hj : j = i
      · subst hj
        have : ¬ (j + 1 ≤ j ∧ j < j + 1 + n) := by omega
        simp [this, List.getElem?_eq_getElem hlt, hi]
      · by_cases hc : i + 1 ≤ j ∧ j < i + 1 + n
        · have : i ≤ j ∧ j < i + (n + 1) := by omega
          simp [hc, this]
        · have : ¬ (i ≤ j ∧ j < i + (n + 1)) := by omega
          simp [hc, this, List.getElem?_set, Ne.symm hj]

theorem buildCopy_eq (argc : Nat) (argv : List CharPtr) (hlen : argv.length = argc + 1)
    (hc : 1 ≤ argc) : buildCopy argc argv = .ok (argv.tail.map some) := by
  obtain ⟨r, hr, hrl, hget⟩ := copyLoop_spec argv argc 0 (List.replicate argc none)
    (by simp) (by omega)
  have hne : argc ≠ 0 := by omega
  simp only [buildCopy, hne, if_false, hr]
  congr 1
  apply List.ext_getElem?
  intro j
  rw [hget j]
  by_cases hj : j < argc
  · simp [hj]
  · have h1 : argv.length ≤ j + 1 := by omega
    simp [hj, List.getElem?_eq_none, h1]
    omega

theorem exists_strings (l : List CharPtr) (h : ∀ p ∈ l, p ≠ none) :
    ∃ strs : List String, l = strs.map some := by
  induction l with
  | nil => exact ⟨[], rfl⟩
  | cons a l ih =>
    obtain ⟨strs, hs⟩ := ih (fun p hp => h p (List.mem_cons_of_mem _ hp))
    cases a with
    | none => exact absurd rfl (h none (List.mem_cons_self _ _))
    | some s => exact ⟨s :: strs, by simp [hs]⟩

theorem wellFormed_iff (argc : Nat) (argv : List CharPtr) :
    WellFormed argc argv ↔
      ∃ strs : List String, strs.length = argc ∧ argv = strs.map some ++ [none] := by
  constructor
  · rintro ⟨hlen, hsome, hlast⟩
    obtain ⟨strs, hs⟩ := exists_strings _ hsome
    have hl : strs.length = argc := by
      have := congrArg List.length hs
      simp at this
      omega
    refine ⟨strs, hl, ?_⟩
    have hd : argv.drop argc = [none] := by
      apply List.ext_getElem?
      intro j
      cases j with
      | zero => simpa using hlast
      | succ j =>
        have : argv.length ≤ argc + (j + 1) := by omega
        simp [List.getElem?_eq_none, this]
    rw [← List.take_append_drop argc argv, hs, hd]
  · rintro ⟨strs, rfl, rfl⟩
    refine ⟨by simp, ?_, ?_⟩
    · intro p hp
      simp at hp
      obtain ⟨a, _, rfl⟩ := hp
      simp
    · simp

theorem execVector_strings (l : List String) (i : Nat) :
    execVector ((l.map some ++ [none]).map some) i = .ok l := by
  induction l generalizing i with
  | nil => rfl
  | cons a l ih =>
    have h := ih (i + 1)
    simp only [List.map_cons, List.cons_append, execVector]
    exact (congrArg (fun r => match r with
      | Except.ok args => Except.ok (a :: args)
      | Except.error f => Except.error f) h : _)

/-! ## Lemmas: descriptor table -/

theorem length_setSlot (t : FdTable) (i : Nat) (v : Option Nat) :
    (setSlot t i v).length = max t.length (i + 1) := by
  unfold setSlot
  split
  · simp; omega
  · simp; omega

theorem slot_padding (m : Nat) (v : Option Nat) (k : Nat) :
    ((List.replicate m (none : Option Nat) ++ [v])[k]?).join = if k = m then v else none := by
  by_cases h1 : k < m
  · have : k ≠ m := by omega
    rw [List.getElem?_append_left (by simpa using h1)]
    simp [this, h1]
  · rw [List.getElem?_append_right (by simpa using h1)]
    by_cases h2 : k = m
    · simp [h2]
    · simp only [h2, if_false, List.length_replicate]
      cases hk : k - m with
      | zero => omega
      | succ n => simp

theorem slot_setSlot (t : FdTable) (i : Nat) (v : Option Nat) (j : Nat) :
    ((setSlot t i v)[j]?).join = if j = i then v else (t[j]?).join := by
  unfold setSlot
  split
  · rename_i h
    by_cases hj : j = i
    · subst hj; simp [h]
    · simp [List.getElem?_set, hj, Ne.symm hj]
  · rename_i h
    rw [List.append_assoc]
    by_cases h1 : j < t.length
    · have : j ≠ i := by omega
      rw [List.getElem?_append_left h1]
      simp [this]
    · have h2 : t[j]? = none := List.getElem?_eq_none (by omega)
      rw [h2, List.getElem?_append_right (by omega), slot_padding]
      by_cases hj : j = i
      · simp [hj]
      · have : j - t.length ≠ i - t.length := by omega
        simp [hj, this]

theorem table_ext (s t : FdTable) (hl : s.length = t.length)
    (h : ∀ j : Nat, (s[j]?).join = (t[j]?).join) : s = t := by
  apply List.ext_getElem hl
  intro j h1 h2
  have := h j
  simpa [List.getElem?_eq_getElem h1, List.getElem?_eq_getElem h2] using this

theorem lookup_natCast (t : FdTable) (j : Nat) : lookup t (j : Int) = (t[j]?).join := by
  simp [lookup]

theorem lookup_setSlot (t : FdTable) (i : Nat) (v : Option Nat) (fd : Int) :
    lookup (setSlot t i v) fd = if fd = (i : Int) then v else lookup t fd := by
  unfold lookup
  by_cases h : fd < 0
  · have : fd ≠ (i : Int) := by omega
    simp [h, this]
  · simp only [h, if_false, slot_setSlot]
    have : (fd.toNat = i) ↔ fd = (i : Int) := by omega
    simp [this]

theorem lowestFree_free (t : FdTable) : (t[lowestFree t]?).join = none := by
  induction t with
  | nil => rfl
  | cons a t ih =>
    cases a with
    | none => simp [lowestFree]
    | some d => simpa [lowestFree] using ih

theorem lowestFree_min (t : FdTable) : ∀ j, j < lowestFree t → (t[j]?).join ≠ none := by
  induction t with
  | nil => intro j h; simp [lowestFree] at h
  | cons a t ih =>
    intro j h
    cases a with
    | none => simp [lowestFree] at h
    | some d =>
      cases j with
      | zero => simp
      | succ j =>
        have := ih j (by simpa [lowestFree] using h)
        simpa using this

theorem setSlot_comm (t : FdTable) (a b : Nat) (v : Option Nat) :
    setSlot (setSlot t a v) b v = setSlot (setSlot t b v) a v := by
  apply table_ext
  · simp [length_setSlot]; omega
  · intro j
    simp only [slot_setSlot]
    by_cases h1 : j = a <;> by_cases h2 : j = b <;> simp [h1, h2]

theorem fdDup2_fst (t : FdTable) (fd k : Int) :
    (fdDup2 t fd k).1 =
      match lookup t fd with
      | none => t
      | some d => if k < 0 ∨ fd = k then t else setSlot t k.toNat (some d) := by
  unfold fdDup2
  cases lookup t fd with
  | none => rfl
  | some d =>
    by_cases h1 : k < 0
    · simp [h1]
    · by_cases h2 : fd = k
      · simp [h1, h2]
      · simp [h1, h2]

theorem lookup_fdDup2 (t : FdTable) (fd k : Int) :
    lookup (fdDup2 t fd k).1 fd = lookup t fd := by
  rw [fdDup2_fst]
  cases h : lookup t fd with
  | none => simpa using h
  | some d =>
    by_cases hk : k < 0 ∨ fd = k
    · simpa [hk] using h
    · simp only [hk, if_false, lookup_setSlot]
      have : fd ≠ ((k.toNat : Nat) : Int) := by omega
      simp [this, h]

theorem fdDup2_comm (t : FdTable) (fd a b : Int) :
    (fdDup2 (fdDup2 t fd a).1 fd b).1 = (fdDup2 (fdDup2 t fd b).1 fd a).1 := by
  rw [fdDup2_fst (fdDup2 t fd a).1, fdDup2_fst (fdDup2 t fd b).1, lookup_fdDup2, lookup_fdDup2]
  cases h : lookup t fd with
  | none => simp [fdDup2_fst, h]
  | some d =>
    simp only [fdDup2_fst, h]
    by_cases ha : a < 0 ∨ fd = a <;> by_cases hb : b < 0 ∨ fd = b <;>
      simp [ha, hb, setSlot_comm]

theorem lookup_fdDup2_at (t : FdTable) (fd k j : Int) :
    lookup (fdDup2 t fd k).1 j =
      if j = k ∧ 0 ≤ k ∧ lookup t fd ≠ none then lookup t fd else lookup t j := by
  rw [fdDup2_fst]
  cases h : lookup t fd with
  | none => simp
  | some d =>
    by_cases hk : k < 0
    · have : ¬ (0 ≤ k) := by omega
      simp [hk, this]
    · by_cases hfd : fd = k
      · subst hfd
        by_cases hj : j = fd
        · simp [hj, h]
        · simp [hj]
      · have h0 : 0 ≤ k := by omega
        have hc : ((k.toNat : Nat) : Int) = k := by omega
        simp [hk, hfd, lookup_setSlot, hc, h0]

theorem fdClose_fst (t : FdTable) (fd : Int) :
    (fdClose t fd).1 =
      match lookup t fd with
      | none => t
      | some _ => setSlot t fd.toNat none := by
  unfold fdClose
  cases lookup t fd <;> rfl

theorem lookup_neg (t : FdTable) (fd : Int) (h : fd < 0) : lookup t fd = none := by
  simp [lookup, h]

theorem lookup_fdClose_at (t : FdTable) (fd j : Int) :
    lookup (fdClose t fd).1 j = if j = fd then none else lookup t j := by
  rw [fdClose_fst]
  cases h : lookup t fd with
  | none =>
    by_cases hj : j = fd
    · simp [hj, h]
    · simp [hj]
  | some d =>
    have h0 : 0 ≤ fd := by
      by_contra hneg
      rw [lookup_neg t fd (by omega)] at h
      exact Option.noConfusion h
    have hc : ((fd.toNat : Nat) : Int) = fd := by omega
    simp [lookup_setSlot, hc]

/-! ## Lemmas: the system calls on the process state -/

theorem openStep_limit (w : World) (hl : w.fdLimit ≤ lowestFree w.fds) :
    openStep w =
      ({ w with log := w.log ++
          [Syscall.sys_open "container_io.txt" (O_RDWR ||| O_CREAT) 0o666] }, -1) := by
  simp [openStep, sys_open, hl]

theorem openStep_refused (w : World) (hl : lowestFree w.fds < w.fdLimit)
    (he : openFile (O_RDWR ||| O_CREAT) 0o666 w.umask w.cwdWritable
      (w.fs "container_io.txt") = none) :
    openStep w =
      ({ w with log := w.log ++
          [Syscall.sys_open "container_io.txt" (O_RDWR ||| O_CREAT) 0o666] }, -1) := by
  simp [openStep, sys_open, Nat.not_le.2 hl, he]

theorem openStep_opened (w : World) (hl : lowestFree w.fds < w.fdLimit) (f : File)
    (he : openFile (O_RDWR ||| O_CREAT) 0o666 w.umask w.cwdWritable
      (w.fs "container_io.txt") = some f) :
    openStep w =
      ({ w with
          log := w.log ++ [Syscall.sys_open "container_io.txt" (O_RDWR ||| O_CREAT) 0o666],
          fs := fun p => if p = "container_io.txt" then some f else w.fs p,
          fds := setSlot w.fds (lowestFree w.fds) (some w.nextOfd),
          nextOfd := w.nextOfd + 1 },
        (lowestFree w.fds : Int)) := by
  simp [openStep, sys_open, Nat.not_le.2 hl, he]

/-- The three ways the open step can go. -/
theorem openStep_cases (w : World) :
    (openStep w =
        ({ w with log := w.log ++
            [Syscall.sys_open "container_io.txt" (O_RDWR ||| O_CREAT) 0o666] }, -1) ∧
      (w.fdLimit ≤ lowestFree w.fds ∨
        openFile (O_RDWR ||| O_CREAT) 0o666 w.umask w.cwdWritable
          (w.fs "container_io.txt") = none)) ∨
    ∃ f, lowestFree w.fds < w.fdLimit ∧
      openFile (O_RDWR ||| O_CREAT) 0o666 w.umask w.cwdWritable
        (w.fs "container_io.txt") = some f ∧
      openStep w =
        ({ w with
            log := w.log ++ [Syscall.sys_open "container_io.txt" (O_RDWR ||| O_CREAT) 0o666],
            fs := fun p => if p = "container_io.txt" then some f else w.fs p,
            fds := setSlot w.fds (lowestFree w.fds) (some w.nextOfd),
            nextOfd := w.nextOfd + 1 },
          (lowestFree w.fds : Int)) := by
  by_cases hl : w.fdLimit ≤ lowestFree w.fds
  · exact Or.inl ⟨openStep_limit w hl, Or.inl hl⟩
  · have hl2 : lowestFree w.fds < w.fdLimit := Nat.not_le.1 hl
    rcases Option.eq_none_or_eq_some (openFile (O_RDWR ||| O_CREAT) 0o666 w.umask w.cwdWritable
        (w.fs "container_io.txt")) with he | ⟨f, he⟩
    · exact Or.inl ⟨openStep_refused w hl2 he, Or.inr he⟩
    · exact Or.inr ⟨f, hl2, he, openStep_opened w hl2 f he⟩

theorem openStep_log (w : World) :
    (openStep w).1.log =
      w.log ++ [Syscall.sys_open "container_io.txt" (O_RDWR ||| O_CREAT) 0o666] := by
  rcases openStep_cases w with ⟨h, _⟩ | ⟨f, _, _, h⟩ <;> rw [h]

theorem openStep_fdLimit (w : World) : (openStep w).1.fdLimit = w.fdLimit := by
  rcases openStep_cases w with ⟨h, _⟩ | ⟨f, _, _, h⟩ <;> rw [h]

theorem openStep_canExec (w : World) : (openStep w).1.canExec = w.canExec := by
  rcases openStep_cases w with ⟨h, _⟩ | ⟨f, _, _, h⟩ <;> rw [h]

theorem openStep_success (w : World) (h : (openStep w).2 ≠ -1) :
    (openStep w).2 = (lowestFree w.fds : Int) ∧
      (openStep w).1.fds = setSlot w.fds (lowestFree w.fds) (some w.nextOfd) ∧
      lowestFree w.fds < w.fdLimit := by
  rcases openStep_cases w with ⟨h1, _⟩ | ⟨f, hl, _, h1⟩
  · rw [h1] at h; exact absurd rfl h
  · rw [h1]; exact ⟨rfl, rfl, hl⟩

theorem sys_dup2_fds (w : World) (fd k : Int) (hk : k < (w.fdLimit : Int)) :
    (sys_dup2 w fd k).1.fds = (fdDup2 w.fds fd k).1 := by
  have : ¬ (fd ≠ k ∧ (w.fdLimit : Int) ≤ k) := by omega
  simp [sys_dup2, this]

theorem sys_dup2_fdLimit (w : World) (fd k : Int) : (sys_dup2 w fd k).1.fdLimit = w.fdLimit :=
  rfl

theorem setup_snd (w : World) : (setup w).2 = (openStep w).2 := rfl

theorem setup_fds_close (w : World) :
    (setup w).1.fds =
      (fdClose (redirectStd (openStep w).1 (openStep w).2).fds (openStep w).2).1 := rfl

theorem redirectStd_fds (w : World) (fd : Int) (h : 3 ≤ w.fdLimit) :
    (redirectStd w fd).fds =
      (fdDup2 (fdDup2 (fdDup2 w.fds fd STDOUT_FILENO).1 fd STDIN_FILENO).1
        fd STDERR_FILENO).1 := by
  have h0 : STDIN_FILENO < (w.fdLimit : Int) := by simp [STDIN_FILENO]; omega
  have h1 : STDOUT_FILENO < (w.fdLimit : Int) := by simp [STDOUT_FILENO]; omega
  have h2 : STDERR_FILENO < (w.fdLimit : Int) := by simp [STDERR_FILENO]; omega
  unfold redirectStd
  dsimp only
  rw [sys_dup2_fds _ _ _ (by rw [sys_dup2_fdLimit, sys_dup2_fdLimit]; exact h2),
    sys_dup2_fds _ _ _ (by rw [sys_dup2_fdLimit]; exact h0), sys_dup2_fds _ _ _ h1]

theorem setup_fds (w : World) (h : 3 ≤ w.fdLimit) :
    (setup w).1.fds =
      (fdClose (fdDup2 (fdDup2 (fdDup2 (openStep w).1.fds (openStep w).2 STDOUT_FILENO).1
        (openStep w).2 STDIN_FILENO).1 (openStep w).2 STDERR_FILENO).1 (openStep w).2).1 := by
  rw [setup_fds_close, redirectStd_fds _ _ (by rw [openStep_fdLimit]; exact h)]

theorem setup_log (w : World) :
    (setup w).1.log =
      w.log ++ [Syscall.sys_open "container_io.txt" (O_RDWR ||| O_CREAT) 0o666,
        Syscall.sys_dup2 (openStep w).2 STDOUT_FILENO,
        Syscall.sys_dup2 (openStep w).2 STDIN_FILENO,
        Syscall.sys_dup2 (openStep w).2 STDERR_FILENO,
        Syscall.sys_close (openStep w).2] := by
  have h : (setup w).1.log =
      (openStep w).1.log ++ [Syscall.sys_dup2 (openStep w).2 STDOUT_FILENO] ++
        [Syscall.sys_dup2 (openStep w).2 STDIN_FILENO] ++
        [Syscall.sys_dup2 (openStep w).2 STDERR_FILENO] ++
        [Syscall.sys_close (openStep w).2] := rfl
  rw [h, openStep_log]
  simp

theorem setup_fs (w : World) : (setup w).1.fs = (openStep w).1.fs := rfl

theorem setup_canExec (w : World) : (setup w).1.canExec = w.canExec := by
  have h : (setup w).1.canExec = (openStep w).1.canExec := rfl
  rw [h, openStep_canExec]

/-- The descriptor returned by `open` is not open just before `execvpe`,
whatever happened in between. -/
theorem setup_fd_closed (w : World) : lookup (setup w).1.fds (setup w).2 = none := by
  rw [setup_fds_close, setup_snd, lookup_fdClose_at]
  simp

/-- After a successful open that leaves the standard descriptors below the
descriptor limit, every slot of the table just before `execvpe` is known: the
descriptor returned by `open` is closed, the other standard descriptors refer
to the new open file description, and the rest is as before. -/
theorem setup_lookup_of_success (w : World) (h : (openStep w).2 ≠ -1) (h3 : 3 ≤ w.fdLimit)
    (j : Int) :
    lookup (setup w).1.fds j =
      if j = (openStep w).2 then none
      else if j = 0 ∨ j = 1 ∨ j = 2 then some w.nextOfd
      else lookup w.fds j := by
  obtain ⟨hfd, hfds, _⟩ := openStep_success w h
  rw [setup_fds w h3, hfds, hfd]
  simp only [lookup_fdClose_at, lookup_fdDup2_at, lookup_setSlot, STDOUT_FILENO, STDIN_FILENO,
    STDERR_FILENO]
  by_cases h1 : j = (lowestFree w.fds : Int)
  · simp [h1]
  · by_cases h0 : j = 0 <;> by_cases h1 : j = 1 <;> by_cases h2 : j = 2 <;> simp_all

/-! ## Lemmas: the whole run -/

/-- The run of `main` on well-formed arguments, written out: the invocation name
`name`, then the strings `args`, then NULL. -/
theorem main_strings (name : String) (args : List String) (w : World) :
    main (args.length + 1) ((name :: args).map some ++ [none]) w =
      match sys_execvpe (setup w).1 args.head? ((args.map some ++ [none]).map some) none with
      | (v, .replaced n a) => { world := v, outcome := .replaced n a }
      | (v, .returned _) => { world := v, outcome := .exited 0 }
      | (v, .fault f) => { world := v, outcome := .fault f } := by
  have hb : buildCopy (args.length + 1) ((name :: args).map some ++ [none]) =
      .ok ((args.map some ++ [none]).map some) := by
    rw [buildCopy_eq _ _ (by simp) (by omega)]
    simp
  have h1 : ((name :: args).map some ++ [none])[1]? = some args.head? := by
    cases args <;> simp
  unfold main
  rw [hb]
  simp only [h1]

theorem sys_execvpe_strings (v : World) (args : List String) :
    sys_execvpe v args.head? ((args.map some ++ [none]).map some) none =
      ({ v with log := v.log ++
          [Syscall.sys_execvpe args.head? ((args.map some ++ [none]).map some) none] },
        match args.head? with
        | none => .fault .nullFile
        | some n => if v.canExec n then .replaced n args else .returned (-1)) := by
  unfold sys_execvpe
  cases h : args.head? with
  | none => rfl
  | some n =>
    simp only [execVector_strings]
    split <;> rfl

theorem main_world (name : String) (args : List String) (w : World) :
    (main (args.length + 1) ((name :: args).map some ++ [none]) w).world =
      { (setup w).1 with log := (setup w).1.log ++
          [Syscall.sys_execvpe args.head? ((args.map some ++ [none]).map some) none] } := by
  rw [main_strings, sys_execvpe_strings]
  cases h : args.head? with
  | none => rfl
  | some n =>
    dsimp only
    by_cases hx : (setup w).1.canExec n = true
    · simp only [hx, if_true]
    · simp [hx]

theorem main_outcome (name : String) (args : List String) (w : World) :
    (main (args.length + 1) ((name :: args).map some ++ [none]) w).outcome =
      match args.head? with
      | none => .fault .nullFile
      | some n => if w.canExec n then .replaced n args else .exited 0 := by
  rw [main_strings, sys_execvpe_strings]
  cases h : args.head? with
  | none => rfl
  | some n =>
    dsimp only
    rw [setup_canExec]
    by_cases hx : w.canExec n = true
    · simp only [hx, if_true]
    · simp [hx]

/-- Well-formed arguments with `argc >= 1` are an invocation name, further
strings, and NULL. -/
theorem wellFormed_cases (argc : Nat) (argv : List CharPtr) (h : WellFormed argc argv)
    (hc : 1 ≤ argc) :
    ∃ (name : String) (args : List String),
      argc = args.length + 1 ∧ argv = (name :: args).map some ++ [none] := by
  obtain ⟨strs, hl, rfl⟩ := (wellFormed_iff argc argv).1 h
  cases strs with
  | nil => simp at hl; omega
  | cons name args => exact ⟨name, args, by simpa using hl.symm, rfl⟩

theorem argv_one (name : String) (args : List String) :
    ((name :: args).map some ++ [none])[1]? = some args.head? := by
  cases args <;> simp

theorem main_log (name : String) (args : List String) (w : World) :
    (main (args.length + 1) ((name :: args).map some ++ [none]) w).world.log =
      w.log ++ [Syscall.sys_open "container_io.txt" (O_RDWR ||| O_CREAT) 0o666,
        Syscall.sys_dup2 (openStep w).2 STDOUT_FILENO,
        Syscall.sys_dup2 (openStep w).2 STDIN_FILENO,
        Syscall.sys_dup2 (openStep w).2 STDERR_FILENO,
        Syscall.sys_close (openStep w).2,
        Syscall.sys_execvpe args.head? ((args.map some ++ [none]).map some) none] := by
  rw [main_world]
  show (setup w).1.log ++ _ = _
  rw [setup_log]
  simp

/-! ## Claims about the argument vector -/

/-- C1: for `argc >= 1` and a well-formed `argv`, the vector `main` builds is
`argv` shifted left by one (`copy_argv[i] = argv[i+1]` for every `i < argc`), it
is what `execvpe` is called with, the program named in that call is `argv[1]`,
and the strings the child receives are `argv[1], ..., argv[argc-1]`. -/
theorem main_passes_shifted_argv (argc : Nat) (argv : List CharPtr) (w : World)
    (hwf : WellFormed argc argv) (hargc : 1 ≤ argc) :
    ∃ (copy_argv : List Slot) (file : CharPtr) (args : List String),
      buildCopy argc argv = .ok copy_argv ∧
      copy_argv.length = argc ∧
      (∀ i, i < argc → ∃ p, argv[i + 1]? = some p ∧ copy_argv[i]? = some (some p)) ∧
      argv[1]? = some file ∧
      (main argc argv w).world.log.getLast? = some (Syscall.sys_execvpe file copy_argv none) ∧
      execVector copy_argv 0 = .ok args ∧
      args.map some = (argv.drop 1).take (argc - 1) ∧
      (∀ name, file = some name → w.canExec name = true →
        (main argc argv w).outcome = .replaced name args) := by
  obtain ⟨name, args, rfl, rfl⟩ := wellFormed_cases argc argv hwf hargc
  refine ⟨(args.map some ++ [none]).map some, args.head?, args, ?_, by simp, ?_, argv_one name args,
    ?_, execVector_strings args 0, ?_, ?_⟩
  · rw [buildCopy_eq _ _ (by simp) (by omega)]
    simp
  · intro i hi
    have hlt : i < (args.map some ++ [none]).length := by simpa using hi
    refine ⟨(args.map some ++ [none])[i], ?_, ?_⟩
    · simp only [List.map_cons, List.cons_append, List.getElem?_cons_succ]
      exact List.getElem?_eq_getElem hlt
    · rw [List.getElem?_map, List.getElem?_eq_getElem hlt]
      rfl
  · rw [main_log]
    simp
  · simp
  · intro n hn hx
    rw [main_outcome, hn]
    simp [hx]

/-- C1, at `utility /bin/echo hello world`: the child is `/bin/echo` with the
vector `[/bin/echo, hello, world]`. -/
theorem main_passes_shifted_argv_witness :
    WellFormed 4 [some "utility", some "/bin/echo", some "hello", some "world", none] ∧
    (main 4 [some "utility", some "/bin/echo", some "hello", some "world", none]
      sampleWorld).outcome = .replaced "/bin/echo" ["/bin/echo", "hello", "world"] ∧
    ∃ (copy_argv : List Slot) (file : CharPtr) (args : List String),
      buildCopy 4 [some "utility", some "/bin/echo", some "hello", some "world", none] =
        .ok copy_argv ∧
      copy_argv.length = 4 ∧
      (∀ i, i < 4 → ∃ p,
        [some "utility", some "/bin/echo", some "hello", some "world", none][i + 1]? = some p ∧
        copy_argv[i]? = some (some p)) ∧
      [some "utility", some "/bin/echo", some "hello", some "world", none][1]? = some file ∧
      (main 4 [some "utility", some "/bin/echo", some "hello", some "world", none]
        sampleWorld).world.log.getLast? = some (Syscall.sys_execvpe file copy_argv none) ∧
      execVector copy_argv 0 = .ok args ∧
      args.map some =
        ([some "utility", some "/bin/echo", some "hello", some "world", none].drop 1).take (4 - 1) ∧
      (∀ name, file = some name → sampleWorld.canExec name = true →
        (main 4 [some "utility", some "/bin/echo", some "hello", some "world", none]
          sampleWorld).outcome = .replaced name args) :=
  ⟨by decide, by decide,
    main_passes_shifted_argv 4 [some "utility", some "/bin/echo", some "hello", some "world", none]
      sampleWorld (by decide) (by decide)⟩

/-- C2 (as stated, refuted): at `utility /bin/echo hello` the first slot of the
vector built by `main` holds `/bin/echo`, the value of `argv[1]`, and not
`hello`, the value of `argv[2]`; the child's own `argv[0]` is the name of the
program executed. -/
theorem first_slot_is_not_argv_two :
    [some "utility", some "/bin/echo", some "hello", none][2]? = some (some "hello") ∧
    firstSlot 3 [some "utility", some "/bin/echo", some "hello", none] ≠ some (some (some "hello")) ∧
    firstSlot 3 [some "utility", some "/bin/echo", some "hello", none] =
      some (some (some "/bin/echo")) ∧
    (main 3 [some "utility", some "/bin/echo", some "hello", none] sampleWorld).outcome =
      .replaced "/bin/echo" ["/bin/echo", "hello"] := by
  decide

/-- C2 (amended): for `argc >= 3` and a well-formed `argv`, the first slot of
the vector `main` builds is filled from `argv[1]`, the same string that names
the program in the `execvpe` call, and `argv[2]` lands in slot 1; the vector is
the one passed to `execvpe`, which reads `argv[1], argv[2], ...` from it, so
when the call succeeds the child's `argv[0]` is the name of the program
executed. -/
theorem first_slot_is_argv_one (argc : Nat) (argv : List CharPtr) (w : World)
    (hwf : WellFormed argc argv) (hargc : 3 ≤ argc) :
    ∃ (name second : String) (rest : List String) (copy_argv : List Slot),
      argv[1]? = some (some name) ∧ argv[2]? = some (some second) ∧
      buildCopy argc argv = .ok copy_argv ∧
      firstSlot argc argv = some (some (some name)) ∧
      copy_argv[0]? = some (some (some name)) ∧
      copy_argv[1]? = some (some (some second)) ∧
      (main argc argv w).world.log.getLast? =
        some (Syscall.sys_execvpe (some name) copy_argv none) ∧
      execVector copy_argv 0 = .ok (name :: second :: rest) ∧
      (name :: second :: rest).map some = (argv.drop 1).take (argc - 1) ∧
      (w.canExec name = true →
        (main argc argv w).outcome = .replaced name (name :: second :: rest)) := by
  obtain ⟨u, args, rfl, rfl⟩ := wellFormed_cases argc argv hwf (by omega)
  match args, hargc, hwf with
  | [], h, _ => simp at h
  | [_], h, _ => simp at h
  | name :: second :: rest, _, _ =>
    have hb : buildCopy ((name :: second :: rest).length + 1)
        ((u :: name :: second :: rest).map some ++ [none]) =
        .ok (((name :: second :: rest).map some ++ [none]).map some) := by
      rw [buildCopy_eq _ _ (by simp) (by omega)]
      simp
    refine ⟨name, second, rest, _, by simp, by simp, hb, ?_, by simp, by simp, ?_,
      execVector_strings (name :: second :: rest) 0, by simp, ?_⟩
    · simp only [firstSlot, hb]
      simp
    · rw [main_log]
      simp
    · intro hx
      rw [main_outcome]
      simp [hx]

/-- C2 (amended), at `utility /bin/echo hello world`: slot 0 holds `/bin/echo`,
slot 1 holds `hello`. -/
theorem first_slot_is_argv_one_witness :
    WellFormed 4 [some "utility", some "/bin/echo", some "hello", some "world", none] ∧ 3 ≤ 4 ∧
    buildCopy 4 [some "utility", some "/bin/echo", some "hello", some "world", none] =
      .ok [some (some "/bin/echo"), some (some "hello"), some (some "world"), some none] ∧
    ∃ (name second : String) (rest : List String) (copy_argv : List Slot),
      [some "utility", some "/bin/echo", some "hello", some "world", none][1]? =
        some (some name) ∧
      [some "utility", some "/bin/echo", some "hello", some "world", none][2]? =
        some (some second) ∧
      buildCopy 4 [some "utility", some "/bin/echo", some "hello", some "world", none] =
        .ok copy_argv ∧
      firstSlot 4 [some "utility", some "/bin/echo", some "hello", some "world", none] =
        some (some (some name)) ∧
      copy_argv[0]? = some (some (some name)) ∧
      copy_argv[1]? = some (some (some second)) ∧
      (main 4 [some "utility", some "/bin/echo", some "hello", some "world", none]
        sampleWorld).world.log.getLast? =
        some (Syscall.sys_execvpe (some name) copy_argv none) ∧
      execVector copy_argv 0 = .ok (name :: second :: rest) ∧
      (name :: second :: rest).map some =
        ([some "utility", some "/bin/echo", some "hello", some "world", none].drop 1).take
          (4 - 1) ∧
      (sampleWorld.canExec name = true →
        (main 4 [some "utility", some "/bin/echo", some "hello", some "world", none]
          sampleWorld).outcome = .replaced name (name :: second :: rest)) :=
  ⟨by decide, by decide, rfl,
    first_slot_is_argv_one 4 [some "utility", some "/bin/echo", some "hello", some "world", none]
      sampleWorld (by decide) (by decide)⟩

/-- The bounds checks of the embedding are effective: with an `argv` one element
too short the loop reads past its end. -/
theorem buildCopy_short_argv :
    buildCopy 2 [some "utility", some "/bin/echo"] = .error (.readOutOfBounds 2) := rfl

/-- C8: for `argc >= 1` and `argv` of `argc + 1` entries (strings, then NULL)
every array access of `main` is in bounds: the loop and the read of `argv[1]`
complete without fault, each index used being inside its array. The last slot
written, `copy_argv[argc-1]`, is the terminator `argv[argc]`, and no earlier slot
is NULL. This vector and the target `argv[1]` are what `main` passes to
`execvpe` in every state, `execvpe` reads exactly `argc - 1` strings from the
vector, and the run of `main` ends as that call decides (never in an access
fault). For `argc = 1` the target is NULL and the vector is empty. -/
theorem main_accesses_in_bounds (argc : Nat) (argv : List CharPtr)
    (hwf : WellFormed argc argv) (hargc : 1 ≤ argc) :
    ∃ (copy_argv : List Slot) (file : CharPtr) (args : List String),
      buildCopy argc argv = .ok copy_argv ∧
      copy_argv.length = argc ∧
      (∀ i, i < argc → i + 1 < argv.length ∧ i < copy_argv.length) ∧
      1 < argv.length ∧ argv[1]? = some file ∧
      argv[argc]? = some none ∧ copy_argv[argc - 1]? = some (some none) ∧
      (∀ j, j < argc - 1 → ∃ s, copy_argv[j]? = some (some (some s))) ∧
      execVector copy_argv 0 = .ok args ∧ args.length = argc - 1 ∧
      (argc = 1 → file = none ∧ args = []) ∧
      (∀ w, (main argc argv w).world.log.getLast? =
        some (Syscall.sys_execvpe file copy_argv none)) ∧
      (∀ w, (main argc argv w).outcome =
        match file with
        | none => .fault .nullFile
        | some n => if w.canExec n then .replaced n args else .exited 0) ∧
      (∀ w i, (main argc argv w).outcome ≠ .fault .vlaSize ∧
        (main argc argv w).outcome ≠ .fault (.readOutOfBounds i) ∧
        (main argc argv w).outcome ≠ .fault (.writeOutOfBounds i) ∧
        (main argc argv w).outcome ≠ .fault (.indeterminateRead i)) := by
  obtain ⟨name, args, rfl, rfl⟩ := wellFormed_cases argc argv hwf hargc
  refine ⟨(args.map some ++ [none]).map some, args.head?, args, ?_, by simp, ?_, by simp,
    argv_one name args, hwf.2.2, ?_, ?_, execVector_strings args 0, by simp, ?_, ?_,
    fun w => main_outcome name args w, ?_⟩
  · rw [buildCopy_eq _ _ (by simp) (by omega)]
    simp
  · intro i hi
    simp
    omega
  · simp
  · intro j hj
    have hlt : j < args.length := by omega
    refine ⟨args[j], ?_⟩
    simp [List.getElem?_append_left, hlt]
  · intro h1
    have : args = [] := List.eq_nil_of_length_eq_zero (by omega)
    subst this
    exact ⟨rfl, rfl⟩
  · intro w
    rw [main_log]
    simp
  · intro w i
    rw [main_outcome]
    cases h : args.head? with
    | none => simp
    | some n =>
      by_cases hx : w.canExec n = true <;> simp [hx]

/-- C8, at `utility /bin/echo hello` (`argc = 3`): the vector is
`[/bin/echo, hello, NULL]`, and the child is `/bin/echo` with two strings. -/
theorem main_accesses_in_bounds_witness :
    WellFormed 3 [some "utility", some "/bin/echo", some "hello", none] ∧ 1 ≤ 3 ∧
    buildCopy 3 [some "utility", some "/bin/echo", some "hello", none] =
      .ok [some (some "/bin/echo"), some (some "hello"), some none] ∧
    (main 3 [some "utility", some "/bin/echo", some "hello", none] sampleWorld).outcome =
      .replaced "/bin/echo" ["/bin/echo", "hello"] ∧
    ∃ (copy_argv : List Slot) (file : CharPtr) (args : List String),
      buildCopy 3 [some "utility", some "/bin/echo", some "hello", none] = .ok copy_argv ∧
      copy_argv.length = 3 ∧
      (∀ i, i < 3 →
        i + 1 < [some "utility", some "/bin/echo", some "hello", none].length ∧
        i < copy_argv.length) ∧
      1 < [some "utility", some "/bin/echo", some "hello", none].length ∧
      [some "utility", some "/bin/echo", some "hello", none][1]? = some file ∧
      [some "utility", some "/bin/echo", some "hello", none][3]? = some none ∧
      copy_argv[3 - 1]? = some (some none) ∧
      (∀ j, j < 3 - 1 → ∃ s, copy_argv[j]? = some (some (some s))) ∧
      execVector copy_argv 0 = .ok args ∧ args.length = 3 - 1 ∧
      (3 = 1 → file = none ∧ args = []) ∧
      (∀ w, (main 3 [some "utility", some "/bin/echo", some "hello", none] w).world.log.getLast? =
        some (Syscall.sys_execvpe file copy_argv none)) ∧
      (∀ w, (main 3 [some "utility", some "/bin/echo", some "hello", none] w).outcome =
        match file with
        | none => .fault .nullFile
        | some n => if w.canExec n then .replaced n args else .exited 0) ∧
      (∀ w i,
        (main 3 [some "utility", some "/bin/echo", some "hello", none] w).outcome ≠
          .fault .vlaSize ∧
        (main 3 [some "utility", some "/bin/echo", some "hello", none] w).outcome ≠
          .fault (.readOutOfBounds i) ∧
        (main 3 [some "utility", some "/bin/echo", some "hello", none] w).outcome ≠
          .fault (.writeOutOfBounds i) ∧
        (main 3 [some "utility", some "/bin/echo", some "hello", none] w).outcome ≠
          .fault (.indeterminateRead i)) :=
  ⟨by decide, by decide, rfl, by decide,
    main_accesses_in_bounds 3 [some "utility", some "/bin/echo", some "hello", none]
      (by decide) (by decide)⟩

/-! ## Claims about the descriptor table -/

/-- When the three standard descriptors are open at the start and the open
succeeds, all three refer to the new open file description just before
`execvpe`. -/
theorem setup_redirects_when_std_open (w : World)
    (h0 : lookup w.fds 0 ≠ none) (h1 : lookup w.fds 1 ≠ none) (h2 : lookup w.fds 2 ≠ none)
    (hopen : (openStep w).2 ≠ -1) :
    lookup (setup w).1.fds 0 = some w.nextOfd ∧ lookup (setup w).1.fds 1 = some w.nextOfd ∧
      lookup (setup w).1.fds 2 = some w.nextOfd := by
  have hfd := (openStep_success w hopen).1
  have hfree : lookup w.fds (lowestFree w.fds : Int) = none := by
    rw [lookup_natCast]; exact lowestFree_free w.fds
  have hn0 : (openStep w).2 ≠ 0 := by
    intro h; rw [hfd] at h; rw [h] at hfree; exact h0 hfree
  have hn1 : (openStep w).2 ≠ 1 := by
    intro h; rw [hfd] at h; rw [h] at hfree; exact h1 hfree
  have hn2 : (openStep w).2 ≠ 2 := by
    intro h; rw [hfd] at h; rw [h] at hfree; exact h2 hfree
  have h3 : 3 ≤ w.fdLimit := by
    have := (openStep_success w hopen).2.2
    rw [hfd] at hn0 hn1 hn2
    omega
  simp [setup_lookup_of_success w hopen h3, Ne.symm hn0, Ne.symm hn1, Ne.symm hn2]

/-- C3 (the code misses a case): when one of the descriptors 0, 1, 2 is closed
at the start and the open succeeds, `open` returns a descriptor in 0..2 and the
final `close(fd)` closes it, so just before `execvpe` that standard stream is
not open. -/
theorem setup_closes_a_standard_stream (w : World)
    (hopen : (openStep w).2 ≠ -1)
    (hclosed : lookup w.fds 0 = none ∨ lookup w.fds 1 = none ∨ lookup w.fds 2 = none) :
    ((setup w).2 = 0 ∨ (setup w).2 = 1 ∨ (setup w).2 = 2) ∧
      lookup (setup w).1.fds (setup w).2 = none := by
  have hfd := (openStep_success w hopen).1
  refine ⟨?_, ?_⟩
  · rw [setup_snd, hfd]
    by_contra hne
    have h3 : 3 ≤ lowestFree w.fds := by omega
    have m0 := lowestFree_min w.fds 0 (by omega)
    have m1 := lowestFree_min w.fds 1 (by omega)
    have m2 := lowestFree_min w.fds 2 (by omega)
    have e0 : lookup w.fds 0 = (w.fds[0]?).join := lookup_natCast w.fds 0
    have e1 : lookup w.fds 1 = (w.fds[1]?).join := lookup_natCast w.fds 1
    have e2 : lookup w.fds 2 = (w.fds[2]?).join := lookup_natCast w.fds 2
    rcases hclosed with h | h | h
    · exact m0 (e0 ▸ h)
    · exact m1 (e1 ▸ h)
    · exact m2 (e2 ▸ h)
  · exact setup_fd_closed w

/-- C3, with standard input closed at the start: `open` returns 0, and just
before `execvpe` descriptor 0 is closed while 1 and 2 refer to the file. -/
theorem setup_closes_a_standard_stream_witness :
    (openStep stdinClosedWorld).2 ≠ -1 ∧
    (lookup stdinClosedWorld.fds 0 = none ∨
      lookup stdinClosedWorld.fds 1 = none ∨
      lookup stdinClosedWorld.fds 2 = none) ∧
    (setup stdinClosedWorld).1.fds = [none, some 1, some 1] ∧
    (((setup stdinClosedWorld).2 = 0 ∨
        (setup stdinClosedWorld).2 = 1 ∨
        (setup stdinClosedWorld).2 = 2) ∧
      lookup (setup stdinClosedWorld).1.fds
        (setup stdinClosedWorld).2 = none) :=
  ⟨by decide, by decide, by decide,
    setup_closes_a_standard_stream stdinClosedWorld
      (by decide) (by decide)⟩

/-- C9: when descriptors 0, 1 and 2 are open at the start and the open
succeeds, the descriptor `open` returns is at least 3, it is closed again just
before `execvpe`, and every slot other than 0, 1 and 2 is as it was at the
start. -/
theorem setup_leaves_other_descriptors (w : World)
    (h0 : lookup w.fds 0 ≠ none) (h1 : lookup w.fds 1 ≠ none) (h2 : lookup w.fds 2 ≠ none)
    (hopen : (openStep w).2 ≠ -1) :
    3 ≤ (setup w).2 ∧ lookup (setup w).1.fds (setup w).2 = none ∧
      ∀ j : Int, j ≠ 0 → j ≠ 1 → j ≠ 2 → lookup (setup w).1.fds j = lookup w.fds j := by
  have hfd := (openStep_success w hopen).1
  have hfree : lookup w.fds (lowestFree w.fds : Int) = none := by
    rw [lookup_natCast]; exact lowestFree_free w.fds
  have hn0 : (lowestFree w.fds : Int) ≠ 0 := by
    intro h; rw [h] at hfree; exact h0 hfree
  have hn1 : (lowestFree w.fds : Int) ≠ 1 := by
    intro h; rw [h] at hfree; exact h1 hfree
  have hn2 : (lowestFree w.fds : Int) ≠ 2 := by
    intro h; rw [h] at hfree; exact h2 hfree
  have h3 : 3 ≤ w.fdLimit := by
    have := (openStep_success w hopen).2.2
    omega
  refine ⟨by rw [setup_snd, hfd]; omega, setup_fd_closed w, ?_⟩
  · intro j j0 j1 j2
    rw [setup_lookup_of_success w hopen h3, hfd]
    by_cases hj : j = (lowestFree w.fds : Int)
    · simp [hj, hfree]
    · simp [hj, j0, j1, j2]

/-- C9, with descriptors 0..3 open at the start: `open` returns 4, which is
closed again, and descriptor 3 is untouched. -/
theorem setup_leaves_other_descriptors_witness :
    lookup extraDescriptorWorld.fds 0 ≠ none ∧
    lookup extraDescriptorWorld.fds 1 ≠ none ∧
    lookup extraDescriptorWorld.fds 2 ≠ none ∧
    (openStep extraDescriptorWorld).2 ≠ -1 ∧
    (setup extraDescriptorWorld).1.fds =
      [some 1, some 1, some 1, some 7, none] ∧
    (3 ≤ (setup extraDescriptorWorld).2 ∧
      lookup (setup extraDescriptorWorld).1.fds
        (setup extraDescriptorWorld).2 = none ∧
      ∀ j : Int, j ≠ 0 → j ≠ 1 → j ≠ 2 →
        lookup (setup extraDescriptorWorld).1.fds j =
          lookup extraDescriptorWorld.fds j) :=
  ⟨by decide, by decide, by decide, by decide, by decide,
    setup_leaves_other_descriptors extraDescriptorWorld
      (by decide) (by decide) (by decide) (by decide)⟩

/-- The effect of `dup2(fd, k)` on the descriptor table under the limit `limit`. -/
theorem sys_dup2_fds_eq (w : World) (fd k : Int) :
    (sys_dup2 w fd k).1.fds =
      if fd ≠ k ∧ (w.fdLimit : Int) ≤ k then w.fds else (fdDup2 w.fds fd k).1 := by
  show (if fd ≠ k ∧ (w.fdLimit : Int) ≤ k then (w.fds, (-1 : Int))
    else fdDup2 w.fds fd k).1 = _
  by_cases h : fd ≠ k ∧ (w.fdLimit : Int) ≤ k
  · rw [if_pos h, if_pos h]
  · rw [if_neg h, if_neg h]

theorem redirectInOrder_fds (fd : Int) (order : List Int) :
    ∀ w : World, (redirectInOrder w fd order).fds =
      order.foldl (fun t k =>
        if fd ≠ k ∧ (w.fdLimit : Int) ≤ k then t else (fdDup2 t fd k).1) w.fds := by
  induction order with
  | nil => intro w; rfl
  | cons k order ih =>
    intro w
    have h := ih (sys_dup2 w fd k).1
    rw [sys_dup2_fdLimit, sys_dup2_fds_eq] at h
    exact h

theorem limited_dup2_comm (limit : Nat) (t : FdTable) (fd a b : Int) :
    (fun (t : FdTable) (k : Int) =>
        if fd ≠ k ∧ (limit : Int) ≤ k then t else (fdDup2 t fd k).1)
      ((fun (t : FdTable) (k : Int) =>
        if fd ≠ k ∧ (limit : Int) ≤ k then t else (fdDup2 t fd k).1) t a) b =
    (fun (t : FdTable) (k : Int) =>
        if fd ≠ k ∧ (limit : Int) ≤ k then t else (fdDup2 t fd k).1)
      ((fun (t : FdTable) (k : Int) =>
        if fd ≠ k ∧ (limit : Int) ≤ k then t else (fdDup2 t fd k).1) t b) a := by
  dsimp only
  by_cases ha : fd ≠ a ∧ (limit : Int) ≤ a <;> by_cases hb : fd ≠ b ∧ (limit : Int) ≤ b
  · simp only [if_pos ha, if_pos hb]
  · simp only [if_pos ha, if_neg hb]
  · simp only [if_neg ha, if_pos hb]
  · simp only [if_neg ha, if_neg hb]
    exact fdDup2_comm t fd a b

/-- C10: the order of the three redirections does not matter: for every state
and every value of `fd` (open, closed or -1), redirecting in any order that is a
permutation of (input, output, error), and in particular in the order the
specification lists, gives the same descriptor table as the order of the
source (output, input, error). -/
theorem redirect_order_irrelevant (w : World) (fd : Int) (order : List Int)
    (h : order.Perm [STDIN_FILENO, STDOUT_FILENO, STDERR_FILENO]) :
    (redirectInOrder w fd order).fds = (redirectStd w fd).fds ∧
      (redirectSpec w fd).fds = (redirectStd w fd).fds := by
  have key : ∀ l : List Int, l.Perm [STDOUT_FILENO, STDIN_FILENO, STDERR_FILENO] →
      (redirectInOrder w fd l).fds = (redirectStd w fd).fds := by
    intro l hl
    rw [redirectInOrder_fds]
    have hstd : (redirectStd w fd).fds =
        [STDOUT_FILENO, STDIN_FILENO, STDERR_FILENO].foldl (fun t k =>
          if fd ≠ k ∧ (w.fdLimit : Int) ≤ k then t else (fdDup2 t fd k).1) w.fds :=
      redirectInOrder_fds fd [STDOUT_FILENO, STDIN_FILENO, STDERR_FILENO] w
    rw [hstd]
    exact hl.foldl_eq' (fun x _ y _ z => limited_dup2_comm w.fdLimit z fd x y) w.fds
  have hswap : [STDIN_FILENO, STDOUT_FILENO, STDERR_FILENO].Perm
      [STDOUT_FILENO, STDIN_FILENO, STDERR_FILENO] := List.Perm.swap _ _ _
  exact ⟨key order (h.trans hswap), key _ hswap⟩

/-- C10, at the order (error, input, output) with `fd = 0` open. -/
theorem redirect_order_irrelevant_witness :
    [STDERR_FILENO, STDIN_FILENO, STDOUT_FILENO].Perm
      [STDIN_FILENO, STDOUT_FILENO, STDERR_FILENO] ∧
    (redirectStd distinctStreamsWorld 0).fds =
      [some 5, some 5, some 5] ∧
    ((redirectInOrder distinctStreamsWorld 0
        [STDERR_FILENO, STDIN_FILENO, STDOUT_FILENO]).fds =
      (redirectStd distinctStreamsWorld 0).fds ∧
    (redirectSpec distinctStreamsWorld 0).fds =
      (redirectStd distinctStreamsWorld 0).fds) :=
  ⟨by decide, by decide,
    redirect_order_irrelevant distinctStreamsWorld 0
      [STDERR_FILENO, STDIN_FILENO, STDOUT_FILENO] (by decide)⟩

/-! ## Claims about the call sequence and the failure paths -/

/-- C4 (as stated, refuted): at `utility /bin/echo` the calls `main` issues are
not the sequence of the specification, whatever descriptor, target and vector
are put into it: the second call redirects descriptor 1 (output), not 0. -/
theorem call_sequence_is_not_spec_order :
    (main 2 [some "utility", some "/bin/echo", none] sampleWorld).world.log[1]? =
      some (Syscall.sys_dup2 3 STDOUT_FILENO) ∧
    ¬ ∃ fd file copy_argv,
      (main 2 [some "utility", some "/bin/echo", none] sampleWorld).world.log =
        specSequence fd file copy_argv := by
  refine ⟨by decide, ?_⟩
  rintro ⟨fd, file, copy_argv, h⟩
  have h1 := congrArg (fun l => l[1]?) h
  have h2 : (main 2 [some "utility", some "/bin/echo", none] sampleWorld).world.log[1]? =
      some (Syscall.sys_dup2 3 STDOUT_FILENO) := by decide
  simp only [h2, specSequence, List.getElem?_cons_succ, List.getElem?_cons_zero, Option.some.injEq,
    Syscall.sys_dup2.injEq, STDOUT_FILENO, STDIN_FILENO] at h1
  omega

/-- C4 (amended): for `argc >= 1` and a well-formed `argv`, the calls `main`
issues are exactly, in this order: open `container_io.txt`; `dup2` onto
descriptor 1 (output); `dup2` onto descriptor 0 (input); `dup2` onto descriptor 2
(error); close the descriptor returned by open; `execvpe` of `argv[1]` with the
built vector. -/
theorem main_call_sequence (argc : Nat) (argv : List CharPtr) (w : World)
    (hwf : WellFormed argc argv) (hargc : 1 ≤ argc) :
    ∃ (copy_argv : List Slot) (file : CharPtr),
      buildCopy argc argv = .ok copy_argv ∧ argv[1]? = some file ∧
      (main argc argv w).world.log =
        w.log ++ [Syscall.sys_open "container_io.txt" (O_RDWR ||| O_CREAT) 0o666,
          Syscall.sys_dup2 (openStep w).2 STDOUT_FILENO,
          Syscall.sys_dup2 (openStep w).2 STDIN_FILENO,
          Syscall.sys_dup2 (openStep w).2 STDERR_FILENO,
          Syscall.sys_close (openStep w).2,
          Syscall.sys_execvpe file copy_argv none] := by
  obtain ⟨name, args, rfl, rfl⟩ := wellFormed_cases argc argv hwf hargc
  refine ⟨(args.map some ++ [none]).map some, args.head?, ?_, argv_one name args, main_log name args w⟩
  rw [buildCopy_eq _ _ (by simp) (by omega)]
  simp

/-- C4 (amended), at `utility /bin/echo hello world`. -/
theorem main_call_sequence_witness :
    WellFormed 4 [some "utility", some "/bin/echo", some "hello", some "world", none] ∧ 1 ≤ 4 ∧
    ∃ (copy_argv : List Slot) (file : CharPtr),
      buildCopy 4 [some "utility", some "/bin/echo", some "hello", some "world", none] =
        .ok copy_argv ∧
      [some "utility", some "/bin/echo", some "hello", some "world", none][1]? = some file ∧
      (main 4 [some "utility", some "/bin/echo", some "hello", some "world", none]
          sampleWorld).world.log =
        sampleWorld.log ++ [Syscall.sys_open "container_io.txt" (O_RDWR ||| O_CREAT) 0o666,
          Syscall.sys_dup2 (openStep sampleWorld).2 STDOUT_FILENO,
          Syscall.sys_dup2 (openStep sampleWorld).2 STDIN_FILENO,
          Syscall.sys_dup2 (openStep sampleWorld).2 STDERR_FILENO,
          Syscall.sys_close (openStep sampleWorld).2,
          Syscall.sys_execvpe file copy_argv none] :=
  ⟨by decide, by decide,
    main_call_sequence 4 [some "utility", some "/bin/echo", some "hello", some "world", none]
      sampleWorld (by decide) (by decide)⟩

/-- C5 (as stated, refuted): at `utility /no/such`, where the target cannot be
executed, `execvpe` returns and `main` ends with exit status 0. -/
theorem exec_failure_exits_zero :
    sampleWorld.canExec "/no/such" = false ∧
    (main 2 [some "utility", some "/no/such", none] sampleWorld).outcome = .exited 0 ∧
    ¬ ∃ status : Int, status ≠ 0 ∧
      (main 2 [some "utility", some "/no/such", none] sampleWorld).outcome = .exited status := by
  refine ⟨by decide, by decide, ?_⟩
  rintro ⟨status, hne, h⟩
  have h0 : (main 2 [some "utility", some "/no/such", none] sampleWorld).outcome = .exited 0 := by
    decide
  rw [h0] at h
  exact hne (Outcome.exited.inj h).symm

/-- C5 (amended): for a well-formed `argv` whose target `argv[1]` cannot be
found or executed (`execvpe` returns), `main` reaches the end of its body and
the process terminates with exit status 0. -/
theorem exec_failure_status (argc : Nat) (argv : List CharPtr) (w : World) (name : String)
    (hwf : WellFormed argc argv) (htarget : argv[1]? = some (some name))
    (hexec : w.canExec name = false) :
    (main argc argv w).outcome = .exited 0 := by
  have hargc : 1 ≤ argc := by
    rcases Nat.eq_zero_or_pos argc with h | h
    · subst h
      have hl := hwf.1
      have : argv[1]? = none := List.getElem?_eq_none (by omega)
      rw [this] at htarget
      exact Option.noConfusion htarget
    · exact h
  obtain ⟨u, args, rfl, rfl⟩ := wellFormed_cases argc argv hwf hargc
  rw [argv_one] at htarget
  rw [main_outcome, Option.some.inj htarget]
  simp [hexec]

/-- C5 (amended), at `utility /no/such`. -/
theorem exec_failure_status_witness :
    WellFormed 2 [some "utility", some "/no/such", none] ∧
    [some "utility", some "/no/such", none][1]? = some (some "/no/such") ∧
    sampleWorld.canExec "/no/such" = false ∧
    (main 2 [some "utility", some "/no/such", none] sampleWorld).outcome = .exited 0 :=
  ⟨by decide, by decide, by decide,
    exec_failure_status 2 [some "utility", some "/no/such", none] sampleWorld "/no/such"
      (by decide) (by decide) (by decide)⟩

/-- The flag semantics of the model are not vacuous: with `O_TRUNC` an existing
file is emptied, with `O_EXCL` the open of an existing file fails, and without
`O_CREAT` an absent file is not created. -/
theorem openFile_other_flags :
    openFile (O_RDWR ||| O_CREAT ||| O_TRUNC) 0o666 0o22 true
      (some { contents := [104, 105, 10], mode := 0o600, mayRead := true, mayWrite := true }) =
      some { contents := [], mode := 0o600, mayRead := true, mayWrite := true } ∧
    openFile (O_RDWR ||| O_CREAT ||| O_EXCL) 0o666 0o22 true
      (some { contents := [104, 105, 10], mode := 0o600, mayRead := true, mayWrite := true }) =
      none ∧
    openFile O_RDWR 0o666 0o22 true none = none := by
  decide

end KataWrapper
